import Mathlib

/-!
# Duplicate-file finder (`dup.go`): embedding and verification

A shallow embedding of `src/G115/dup/dup.go`.

* Go `string` values are Lean `String`s.
* The package-level variables (`ctrEmptyFile`, ..., `dups`, `fileCtr`, `fileCtr25`) are the
  fields of `Globals`; every function that touches them takes and returns a `Globals`.
* The `int64` counters are `Int`.  Each is reset to zero before a scan and grows by at most one
  per callback invocation, so the 64-bit range is never left.
* `ctrGBytes` is a `float64`.  It is kept symbolically as the list of the sizes whose
  `float64(size) / 1024^3` have been added since the last reset, in order; the Go value is the
  left fold of `float64` addition over that list.
* The Go map `dups` is an association list with at most one pair per key (`mapGet`, `mapSet`).
* Console output and file opens are recorded, in program order, in the field `log`.
* Functions of the Go standard library and the file system are fields of `Runtime`; the calls
  `strings.Trim`, `strings.Split` and `fmt.Sprintf` of the report and of the key are defined
  here.  Strings are sequences of characters (paths are taken to be valid UTF-8).
* A scan is the sequence of calls `filepath.Walk` makes to the walk function (`walkCalls`).
-/

namespace Dup

/-! ## Data model -/

/-- The Go struct `dupRecord`: the base file and the quoted, comma-terminated duplicates. -/
structure dupRecord where
  fullpath : String
  duplicateList : String
deriving DecidableEq, Repr

/-- The Go type `map[string]dupRecord`. -/
abbrev DupMap := List (String × dupRecord)

/-- The map read `v, exists := m[k]`: `none` when `exists` is false. -/
def mapGet : DupMap → String → Option dupRecord
  | [], _ => none
  | (k', v) :: m, k => if k' = k then some v else mapGet m k

/-- The map write `m[k] = v`: replaces the value of an existing key, adds a new key otherwise. -/
def mapSet : DupMap → String → dupRecord → DupMap
  | [], k, v => [(k, v)]
  | (k', v') :: m, k, v => if k' = k then (k, v) :: m else (k', v') :: mapSet m k v

/-- The keys of the map; `len(m)` is the length of this list. -/
def mapKeys (m : DupMap) : List String := m.map Prod.fst

/-- The part of `os.FileInfo` that `processFile` reads. -/
structure FileInfo where
  isDir : Bool
  size : Int
deriving DecidableEq, Repr

/-- What happens when `hashFile` opens a file and copies it into the hash. -/
inductive ReadResult where
  | openError
  | copyError
  | content (bytes : List (Fin 256))
deriving DecidableEq, Repr

/-- Observable effects, in program order. -/
inductive Event where
  | printDot
  | printProcessed (gbytes : List Int)
  | printSkipLarge (size : Int) (path : String)
  | openFile (fn : String)
  | printErrorOpening (fn : String)
  | printErrorCopying (fn : String)
deriving DecidableEq, Repr

/-- The standard-library functions and the file system the program runs against:
`filepath.Clean`, `filepath.Base`, `strings.EqualFold`, `sha256` and the outcome of
`os.Open` followed by `io.Copy` on a path. -/
structure Runtime where
  clean : String → String
  base : String → String
  equalFold : String → String → Bool
  sha256 : List (Fin 256) → List (Fin 256)
  readFile : String → ReadResult

/-- The package-level variables of `dup.go`, and the effect log. -/
structure Globals where
  ctrEmptyFile : Int
  ctrBaseUnique : Int
  ctrBaseDup : Int
  ctrSubFolders : Int
  ctrFilesProcessed : Int
  ctrGBytes : List Int
  dups : DupMap
  fileCtr : Int
  fileCtr25 : Int
  log : List Event
deriving DecidableEq, Repr

/-- The value a `filepath.WalkFunc` returns: `nil` or `filepath.SkipDir`. -/
inductive WalkResult where
  | nil
  | SkipDir
deriving DecidableEq, Repr

/-! ## Formatting helpers (`fmt.Sprintf`) -/

/-- Left padding with the character zero up to width `w`. -/
def padZeros (w : Nat) (ds : List Char) : List Char :=
  List.replicate (w - ds.length) '0' ++ ds

/-- The Go call `fmt.Sprintf("%012d", n)`: decimal digits padded with zeros to width 12, the
sign of a negative number taking one of the 12 places. -/
def sprintf012d (n : Int) : String :=
  if n < 0 then ⟨'-' :: padZeros 11 (Nat.toDigits 10 n.natAbs)⟩
  else ⟨padZeros 12 (Nat.toDigits 10 n.natAbs)⟩

/-- Two lowercase hexadecimal digits of one byte. -/
def hexByte (b : Fin 256) : List Char :=
  [Nat.digitChar (b.val / 16), Nat.digitChar (b.val % 16)]

/-- The Go call `fmt.Sprintf("%x", bytes)`. -/
def sprintfx (bs : List (Fin 256)) : String :=
  ⟨bs.flatMap hexByte⟩

/-! ## `hashFile` -/

/-- The function `hashFile`: the hash string of the file, or `"0"` when the file cannot be
opened or copied; with the effects it performs. -/
def hashFile (rt : Runtime) (fn : String) : String × List Event :=
  match rt.readFile fn with
  | .openError => ("0", [.openFile fn, .printErrorOpening fn])
  | .copyError => ("0", [.openFile fn, .printErrorCopying fn])
  | .content bs => (sprintfx (rt.sha256 bs), [.openFile fn])

/-! ## `processFile` -/

/-- Lines 98-110 of `processFile`: the progress dot every 26th call and the cumulative line. -/
def progress (g : Globals) : Globals :=
  let g := { g with fileCtr := g.fileCtr + 1 }
  let g := if g.fileCtr > 25 then
      { g with log := g.log ++ [.printDot], fileCtr := 0, fileCtr25 := g.fileCtr25 + 1 }
    else g
  if g.fileCtr25 > 10 then
    { g with log := g.log ++ [.printProcessed g.ctrGBytes], fileCtr25 := 0 }
  else g

/-- The key under which `processFile` files an entry: `ssize + shash`. -/
def fileKey (rt : Runtime) (path : String) (size : Int) : String :=
  sprintf012d size ++ (hashFile rt path).1

/-- The closure returned by `processFile(rootFolder, recursive, isBase)`, applied to one
entry `(path, info)` in the state `g`. -/
def processFile (rt : Runtime) (rootFolder : String) (recursive isBase : Bool)
    (path : String) (info : FileInfo) (g : Globals) : WalkResult × Globals :=
  let g := progress g
  let isRoot := rt.equalFold (rt.clean path) rootFolder
  if info.isDir then
    if !isRoot then
      if !recursive then (.SkipDir, g)
      else
        let tmp := rt.base path
        if rt.equalFold tmp ".git" then (.SkipDir, g)
        else (.nil, { g with ctrSubFolders := g.ctrSubFolders + 1 })
    else (.nil, g)
  else if info.size ≤ 0 then
    (.nil, { g with ctrEmptyFile := g.ctrEmptyFile + 1 })
  else if info.size ≥ 75000000 then
    (.nil, { g with ctrEmptyFile := g.ctrEmptyFile + 1,
                    log := g.log ++ [.printSkipLarge info.size path] })
  else if !isRoot then
    let ssize := sprintf012d info.size
    let shash := hashFile rt path
    let key := ssize ++ shash.1
    let g := { g with ctrFilesProcessed := g.ctrFilesProcessed + 1,
                      ctrGBytes := g.ctrGBytes ++ [info.size],
                      log := g.log ++ shash.2 }
    let duprec : dupRecord := { fullpath := path, duplicateList := "" }
    match mapGet g.dups key with
    | none =>
      if isBase then
        (.nil, { g with ctrBaseUnique := g.ctrBaseUnique + 1, dups := mapSet g.dups key duprec })
      else (.nil, g)
    | some tmp =>
      (.nil, { g with ctrBaseDup := g.ctrBaseDup + 1,
                      dups := mapSet g.dups key
                        { tmp with duplicateList := tmp.duplicateList ++ ("\"" ++ path ++ "\",") } })
  else (.nil, g)

/-! ## The two scans of `main` -/

/-- One invocation of the walk function by `filepath.Walk`. -/
structure WalkCall where
  path : String
  info : FileInfo
deriving DecidableEq, Repr

/-- The state after `filepath.Walk` has invoked the walk function on `calls`, in order. -/
def walkCalls (rt : Runtime) (rootFolder : String) (recursive isBase : Bool) :
    List WalkCall → Globals → Globals
  | [], g => g
  | c :: cs, g =>
    walkCalls rt rootFolder recursive isBase cs
      (processFile rt rootFolder recursive isBase c.path c.info g).2

/-- The counter resets `main` performs before each scan (lines 245-250 and 272-277). -/
def resetCounters (g : Globals) : Globals :=
  { g with ctrEmptyFile := 0, ctrBaseUnique := 0, ctrBaseDup := 0, ctrSubFolders := 0,
           ctrFilesProcessed := 0, ctrGBytes := [] }

/-- The package-level variables at program start, with `dups = make(map[string]dupRecord)`. -/
def initGlobals : Globals :=
  { ctrEmptyFile := 0, ctrBaseUnique := 0, ctrBaseDup := 0, ctrSubFolders := 0,
    ctrFilesProcessed := 0, ctrGBytes := [], dups := [], fileCtr := 0, fileCtr25 := 0, log := [] }

/-- Lines 242-253 of `main`: the base scan. -/
def baseScan (rt : Runtime) (mainFolder : String) (baseRecurse : Bool)
    (baseCalls : List WalkCall) : Globals :=
  walkCalls rt mainFolder baseRecurse true baseCalls (resetCounters initGlobals)

/-- Lines 242-280 of `main`: the base scan followed by the search scan on the same map. -/
def bothScans (rt : Runtime) (mainFolder searchFolder : String) (baseRecurse searchRecurse : Bool)
    (baseCalls searchCalls : List WalkCall) : Globals :=
  walkCalls rt searchFolder searchRecurse false searchCalls
    (resetCounters (baseScan rt mainFolder baseRecurse baseCalls))

/-! ## The report writer -/

/-- The Go call `strings.Trim(s, cutset)`. -/
def trim (s cutset : String) : String :=
  ⟨((s.data.dropWhile (fun c => cutset.data.contains c)).reverse.dropWhile
      (fun c => cutset.data.contains c)).reverse⟩

/-- The function `doubleQuote`. -/
def doubleQuote (s : String) : String :=
  "\"" ++ trim s " \"" ++ "\""

/-- Splitting around a non-empty separator: `skip` counts separator characters still to be
dropped, `acc` holds the current piece reversed. -/
def splitGo (sep : List Char) : List Char → Nat → List Char → List String
  | [], _, acc => [⟨acc.reverse⟩]
  | _ :: cs, skip + 1, acc => splitGo sep cs skip acc
  | c :: cs, 0, acc =>
    if sep.isPrefixOf (c :: cs) then ⟨acc.reverse⟩ :: splitGo sep cs (sep.length - 1) []
    else splitGo sep cs 0 (c :: acc)

/-- The Go call `strings.Split(s, sep)`. -/
def split (s sep : String) : List String :=
  if sep.data = [] then s.data.map String.singleton
  else splitGo sep.data s.data 0 []

/-- Lines 330-336 of `main`: the lines written for the pieces of one duplicate list. -/
def duplicateLines : List String → String
  | [] => ""
  | a :: arr =>
    (if doubleQuote a ≠ "\"\"" then "  - Duplicate:" ++ doubleQuote a ++ "\n" else "")
      ++ duplicateLines arr

/-- Lines 325-339 of `main`: what one iteration of the loop over `dups` writes. -/
def reportRecord (v : dupRecord) : String :=
  if trim v.duplicateList " \"" ≠ "" then
    "Base File:    " ++ doubleQuote v.fullpath ++ "\n"
      ++ duplicateLines (split v.duplicateList "\",") ++ "\n"
  else ""

/-- Lines 324-340 of `main`: the log file written when the map is iterated in the order
`vs`. -/
def writeReport : List dupRecord → String
  | [] => ""
  | v :: vs => reportRecord v ++ writeReport vs

/-! ## The report as the log format describes it -/

/-- The duplicate list after the per-file step has appended the paths `ps` to `dl`, in
order (line 171, once per path). -/
def appendDuplicates (dl : String) : List String → String
  | [] => dl
  | p :: ps => appendDuplicates (dl ++ ("\"" ++ p ++ "\",")) ps

/-- The duplicate lines of the log format for the paths `ps`: one line per path, the path
trimmed and wrapped in double quotes. -/
def duplicateBlock : List String → String
  | [] => ""
  | p :: ps => "  - Duplicate:" ++ doubleQuote p ++ "\n" ++ duplicateBlock ps

/-! ## Reading a decimal string back -/

/-- The number denoted by a list of decimal digit characters, most significant first. -/
def decimalValue (cs : List Char) : Nat :=
  cs.foldl (fun a c => 10 * a + (c.toNat - 48)) 0

/-! ## A concrete runtime for examples -/

/-- ASCII case folding of one character. -/
def foldChar (c : Char) : Char := c.toLower

/-- A sample runtime: paths are taken as already clean, the base name is the text after the
last slash, case folding is ASCII, the digest is the content itself and the files not listed
in `files` cannot be opened. -/
def sampleRuntime (files : List (String × List (Fin 256))) : Runtime where
  clean := fun p => p
  base := fun p => ⟨(p.data.reverse.takeWhile (fun c => c ≠ '/')).reverse⟩
  equalFold := fun a b => a.data.map foldChar == b.data.map foldChar
  sha256 := fun bs => bs
  readFile := fun p =>
    match files.lookup p with
    | some bs => .content bs
    | none => .openError

/-- Three files with the same two bytes of content: two under `base`, one under `s`. -/
def sampleRt : Runtime :=
  sampleRuntime
    [("base/a1.txt", [104, 105]), ("base/a2.txt", [104, 105]), ("s/b.txt", [104, 105])]

/-- A base scan that meets the folder `base` and then `a1.txt`. -/
def sampleBaseFirst : List WalkCall :=
  [⟨"base", ⟨true, 4096⟩⟩, ⟨"base/a1.txt", ⟨false, 2⟩⟩]

/-- A base scan that meets the folder `base`, then `a1.txt`, then `a2.txt`. -/
def sampleBaseCalls : List WalkCall :=
  [⟨"base", ⟨true, 4096⟩⟩, ⟨"base/a1.txt", ⟨false, 2⟩⟩, ⟨"base/a2.txt", ⟨false, 2⟩⟩]

/-- A search scan that meets the folder `s` and then `b.txt`. -/
def sampleSearchCalls : List WalkCall :=
  [⟨"s", ⟨true, 4096⟩⟩, ⟨"s/b.txt", ⟨false, 2⟩⟩]

/-- The state after the base scan over `sampleBaseFirst`. -/
def sampleState : Globals := baseScan sampleRt "base" true sampleBaseFirst

/-- A runtime in which no file can be opened. -/
def unreadableRt : Runtime := sampleRuntime []

/-- One readable file under `base` and a file under `s` with the same content whose name
contains a double quote followed by a comma. -/
def quoteRt : Runtime :=
  sampleRuntime [("base/x.txt", [104, 105]), ("s/a\",b.txt", [104, 105])]

/-! ## Lemmas on the map -/

theorem mapGet_mapSet_self (m : DupMap) (k : String) (v : dupRecord) :
    mapGet (mapSet m k v) k = some v := by
  induction m with
  | nil => simp [mapSet, mapGet]
  | cons kv m ih =>
    obtain ⟨k', v'⟩ := kv
    by_cases h : k' = k <;> simp [mapSet, mapGet, h, ih]

theorem mapGet_mapSet_of_ne (m : DupMap) (k k' : String) (v : dupRecord) (h : k' ≠ k) :
    mapGet (mapSet m k v) k' = mapGet m k' := by
  induction m with
  | nil => simp [mapSet, mapGet, Ne.symm h]
  | cons kv m ih =>
    obtain ⟨k₀, v₀⟩ := kv
    by_cases h₀ : k₀ = k
    · subst h₀
      simp [mapSet, mapGet, Ne.symm h]
    · simp [mapSet, mapGet, h₀, ih]

theorem mapGet_eq_none_iff (m : DupMap) (k : String) :
    mapGet m k = none ↔ k ∉ mapKeys m := by
  induction m with
  | nil => simp [mapGet, mapKeys]
  | cons kv m ih =>
    obtain ⟨k₀, v₀⟩ := kv
    by_cases h₀ : k₀ = k
    · simp [mapGet, mapKeys, h₀]
    · have : ¬ k = k₀ := fun h => h₀ h.symm
      simpa [mapGet, mapKeys, h₀, this] using ih

theorem mapKeys_mapSet_of_none (m : DupMap) (k : String) (v : dupRecord)
    (h : mapGet m k = none) : mapKeys (mapSet m k v) = mapKeys m ++ [k] := by
  induction m with
  | nil => simp [mapSet, mapKeys]
  | cons kv m ih =>
    obtain ⟨k₀, v₀⟩ := kv
    by_cases h₀ : k₀ = k
    · simp [mapGet, h₀] at h
    · simp only [mapGet, h₀, if_false] at h
      have := ih h
      simp only [mapKeys] at this ⊢
      simp [mapSet, h₀, this]

theorem mapKeys_mapSet_of_some (m : DupMap) (k : String) (v r : dupRecord)
    (h : mapGet m k = some r) : mapKeys (mapSet m k v) = mapKeys m := by
  induction m with
  | nil => simp [mapGet] at h
  | cons kv m ih =>
    obtain ⟨k₀, v₀⟩ := kv
    by_cases h₀ : k₀ = k
    · simp [mapSet, mapKeys, h₀]
    · simp only [mapGet, h₀, if_false] at h
      have := ih h
      simp only [mapKeys] at this ⊢
      simp [mapSet, h₀, this]

/-! ## The progress block touches only `fileCtr`, `fileCtr25` and the log -/

@[simp] theorem progress_dups (g : Globals) : (progress g).dups = g.dups := by
  unfold progress; dsimp only; split_ifs <;> rfl

@[simp] theorem progress_ctrEmptyFile (g : Globals) :
    (progress g).ctrEmptyFile = g.ctrEmptyFile := by
  unfold progress; dsimp only; split_ifs <;> rfl

@[simp] theorem progress_ctrBaseUnique (g : Globals) :
    (progress g).ctrBaseUnique = g.ctrBaseUnique := by
  unfold progress; dsimp only; split_ifs <;> rfl

@[simp] theorem progress_ctrBaseDup (g : Globals) :
    (progress g).ctrBaseDup = g.ctrBaseDup := by
  unfold progress; dsimp only; split_ifs <;> rfl

@[simp] theorem progress_ctrSubFolders (g : Globals) :
    (progress g).ctrSubFolders = g.ctrSubFolders := by
  unfold progress; dsimp only; split_ifs <;> rfl

@[simp] theorem progress_ctrFilesProcessed (g : Globals) :
    (progress g).ctrFilesProcessed = g.ctrFilesProcessed := by
  unfold progress; dsimp only; split_ifs <;> rfl

@[simp] theorem progress_ctrGBytes (g : Globals) : (progress g).ctrGBytes = g.ctrGBytes := by
  unfold progress; dsimp only; split_ifs <;> rfl

theorem progress_log_openFile (g : Globals) (fn : String) :
    Event.openFile fn ∈ (progress g).log ↔ Event.openFile fn ∈ g.log := by
  unfold progress; dsimp only; split_ifs <;> simp

/-! ## The per-entry step, case by case -/

/-- A file that passes the size filter and is not the root: the step is decided by the map
lookup alone. -/
theorem processFile_of_file (rt : Runtime) (rootFolder : String) (recursive isBase : Bool)
    (path : String) (info : FileInfo) (g : Globals)
    (hfile : info.isDir = false)
    (hroot : rt.equalFold (rt.clean path) rootFolder = false)
    (hpos : 0 < info.size) (hlt : info.size < 75000000) :
    processFile rt rootFolder recursive isBase path info g =
      let g₁ : Globals := { progress g with
        ctrFilesProcessed := g.ctrFilesProcessed + 1,
        ctrGBytes := g.ctrGBytes ++ [info.size],
        log := (progress g).log ++ (hashFile rt path).2 }
      match mapGet g.dups (fileKey rt path info.size) with
      | none =>
        if isBase then
          (.nil, { g₁ with ctrBaseUnique := g.ctrBaseUnique + 1,
                           dups := mapSet g.dups (fileKey rt path info.size)
                             { fullpath := path, duplicateList := "" } })
        else (.nil, g₁)
      | some tmp =>
        (.nil, { g₁ with ctrBaseDup := g.ctrBaseDup + 1,
                         dups := mapSet g.dups (fileKey rt path info.size)
                           { tmp with
                             duplicateList := tmp.duplicateList ++ ("\"" ++ path ++ "\",") } }) := by
  have h1 : ¬ info.size ≤ 0 := not_le.mpr hpos
  have h2 : ¬ info.size ≥ 75000000 := not_le.mpr hlt
  simp only [processFile, fileKey, hfile, hroot, h1, h2, progress_dups, progress_ctrBaseUnique,
    progress_ctrBaseDup, progress_ctrFilesProcessed, progress_ctrGBytes, Bool.not_false,
    if_true, if_false, Bool.false_eq_true]

/-- Every entry that is not a file passing the size filter outside the root leaves the map and
the three file counters alone. -/
theorem processFile_of_not_file (rt : Runtime) (rootFolder : String) (recursive isBase : Bool)
    (path : String) (info : FileInfo) (g : Globals)
    (h : ¬ (info.isDir = false ∧ rt.equalFold (rt.clean path) rootFolder = false ∧
      0 < info.size ∧ info.size < 75000000)) :
    (processFile rt rootFolder recursive isBase path info g).2.dups = g.dups ∧
    (processFile rt rootFolder recursive isBase path info g).2.ctrFilesProcessed
      = g.ctrFilesProcessed ∧
    (processFile rt rootFolder recursive isBase path info g).2.ctrBaseUnique = g.ctrBaseUnique ∧
    (processFile rt rootFolder recursive isBase path info g).2.ctrBaseDup = g.ctrBaseDup := by
  unfold processFile
  dsimp only
  split_ifs <;> simp_all

/-! ## The per-file step: duplicates, new base files, unmatched search files -/

/-- C2: a non-root file with `0 < size < 75,000,000` whose key is already in the map, in the
base scan and in the search scan alike: the step appends the quoted path and a comma to the
end of that record's duplicate list, keeps the record's `fullpath`, keeps every other record
and the set of keys, adds exactly 1 to `ctrBaseDup` and leaves `ctrBaseUnique` unchanged. -/
theorem C2_present_key_appends_duplicate (rt : Runtime) (rootFolder : String)
    (recursive isBase : Bool) (path : String) (info : FileInfo) (g : Globals) (r : dupRecord)
    (hfile : info.isDir = false)
    (hroot : rt.equalFold (rt.clean path) rootFolder = false)
    (hpos : 0 < info.size) (hlt : info.size < 75000000)
    (hkey : mapGet g.dups (fileKey rt path info.size) = some r) :
    mapGet (processFile rt rootFolder recursive isBase path info g).2.dups
        (fileKey rt path info.size)
      = some { fullpath := r.fullpath,
               duplicateList := r.duplicateList ++ "\"" ++ path ++ "\"," } ∧
    (∀ k, k ≠ fileKey rt path info.size →
      mapGet (processFile rt rootFolder recursive isBase path info g).2.dups k
        = mapGet g.dups k) ∧
    mapKeys (processFile rt rootFolder recursive isBase path info g).2.dups = mapKeys g.dups ∧
    (processFile rt rootFolder recursive isBase path info g).2.ctrBaseDup = g.ctrBaseDup + 1 ∧
    (processFile rt rootFolder recursive isBase path info g).2.ctrBaseUnique
      = g.ctrBaseUnique := by
  rw [processFile_of_file rt rootFolder recursive isBase path info g hfile hroot hpos hlt]
  simp only [hkey]
  refine ⟨?_, ?_, ?_, by simp, by simp⟩
  · rw [mapGet_mapSet_self]
    simp [String.append_assoc]
  · intro k hk
    exact mapGet_mapSet_of_ne _ _ _ _ hk
  · exact mapKeys_mapSet_of_some _ _ _ _ hkey

/-- C3: a non-root file with `0 < size < 75,000,000` met in the base scan whose key is not
yet in the map: the step stores under that key a record with `fullpath` the entry's path and
an empty duplicate list, adds exactly 1 to `ctrBaseUnique`, and leaves `ctrBaseDup` and every
existing record unchanged. -/
theorem C3_base_new_key_inserts_record (rt : Runtime) (rootFolder : String) (recursive : Bool)
    (path : String) (info : FileInfo) (g : Globals)
    (hfile : info.isDir = false)
    (hroot : rt.equalFold (rt.clean path) rootFolder = false)
    (hpos : 0 < info.size) (hlt : info.size < 75000000)
    (hkey : mapGet g.dups (fileKey rt path info.size) = none) :
    mapGet (processFile rt rootFolder recursive true path info g).2.dups
        (fileKey rt path info.size) = some { fullpath := path, duplicateList := "" } ∧
    (∀ k v, mapGet g.dups k = some v →
      mapGet (processFile rt rootFolder recursive true path info g).2.dups k = some v) ∧
    mapKeys (processFile rt rootFolder recursive true path info g).2.dups
      = mapKeys g.dups ++ [fileKey rt path info.size] ∧
    (processFile rt rootFolder recursive true path info g).2.ctrBaseUnique
      = g.ctrBaseUnique + 1 ∧
    (processFile rt rootFolder recursive true path info g).2.ctrBaseDup = g.ctrBaseDup := by
  rw [processFile_of_file rt rootFolder recursive true path info g hfile hroot hpos hlt]
  simp only [hkey, if_true]
  refine ⟨mapGet_mapSet_self _ _ _, ?_, mapKeys_mapSet_of_none _ _ _ hkey, by simp, by simp⟩
  intro k v hv
  have hk : k ≠ fileKey rt path info.size := by
    rintro rfl
    rw [hkey] at hv
    cases hv
  rw [mapGet_mapSet_of_ne _ _ _ _ hk]
  exact hv

/-- C4: a file entry met in the search scan whose key is not in the map: the step leaves the
map exactly as it was, and leaves `ctrBaseDup` and `ctrBaseUnique` unchanged. -/
theorem C4_search_unmatched_is_noop (rt : Runtime) (rootFolder : String) (recursive : Bool)
    (path : String) (info : FileInfo) (g : Globals)
    (hfile : info.isDir = false)
    (hkey : mapGet g.dups (fileKey rt path info.size) = none) :
    (processFile rt rootFolder recursive false path info g).2.dups = g.dups ∧
    (processFile rt rootFolder recursive false path info g).2.ctrBaseDup = g.ctrBaseDup ∧
    (processFile rt rootFolder recursive false path info g).2.ctrBaseUnique
      = g.ctrBaseUnique := by
  by_cases h : info.isDir = false ∧ rt.equalFold (rt.clean path) rootFolder = false ∧
      0 < info.size ∧ info.size < 75000000
  · obtain ⟨_, hroot, hpos, hlt⟩ := h
    rw [processFile_of_file rt rootFolder recursive false path info g hfile hroot hpos hlt]
    simp [hkey]
  · obtain ⟨h1, _, h3, h4⟩ :=
      processFile_of_not_file rt rootFolder recursive false path info g h
    exact ⟨h1, h4, h3⟩

/-- C5: a file entry of size 0 or of at least 75,000,000 bytes is skipped without being
hashed: the step returns `nil`, adds exactly 1 to `ctrEmptyFile`, opens no file, and leaves the
map, `ctrFilesProcessed`, `ctrGBytes`, `ctrBaseUnique` and `ctrBaseDup` unchanged.  A file of
74,999,999 bytes is not skipped (`ctrEmptyFile` keeps its value and, outside the root, the
file is opened and counted in `ctrFilesProcessed`); a file of 75,000,000 bytes is. -/
theorem C5_empty_or_oversized_skipped :
    (∀ (rt : Runtime) (rootFolder : String) (recursive isBase : Bool) (path : String)
        (info : FileInfo) (g : Globals),
      info.isDir = false → (info.size = 0 ∨ 75000000 ≤ info.size) →
        (processFile rt rootFolder recursive isBase path info g).1 = WalkResult.nil ∧
        (processFile rt rootFolder recursive isBase path info g).2.ctrEmptyFile
          = g.ctrEmptyFile + 1 ∧
        (∀ fn, Event.openFile fn ∈ (processFile rt rootFolder recursive isBase path info g).2.log
          → Event.openFile fn ∈ g.log) ∧
        (processFile rt rootFolder recursive isBase path info g).2.dups = g.dups ∧
        (processFile rt rootFolder recursive isBase path info g).2.ctrFilesProcessed
          = g.ctrFilesProcessed ∧
        (processFile rt rootFolder recursive isBase path info g).2.ctrGBytes = g.ctrGBytes ∧
        (processFile rt rootFolder recursive isBase path info g).2.ctrBaseUnique
          = g.ctrBaseUnique ∧
        (processFile rt rootFolder recursive isBase path info g).2.ctrBaseDup = g.ctrBaseDup) ∧
    (∀ (rt : Runtime) (rootFolder : String) (recursive isBase : Bool) (path : String)
        (g : Globals),
      (processFile rt rootFolder recursive isBase path ⟨false, 74999999⟩ g).2.ctrEmptyFile
          = g.ctrEmptyFile ∧
      (rt.equalFold (rt.clean path) rootFolder = false →
        (processFile rt rootFolder recursive isBase path ⟨false, 74999999⟩ g).2.ctrFilesProcessed
          = g.ctrFilesProcessed + 1 ∧
        Event.openFile path
          ∈ (processFile rt rootFolder recursive isBase path ⟨false, 74999999⟩ g).2.log) ∧
      (processFile rt rootFolder recursive isBase path ⟨false, 75000000⟩ g).2.ctrEmptyFile
          = g.ctrEmptyFile + 1 ∧
      (processFile rt rootFolder recursive isBase path ⟨false, 75000000⟩ g).2.ctrFilesProcessed
          = g.ctrFilesProcessed) := by
  constructor
  · intro rt rootFolder recursive isBase path info g hfile hsz
    rcases hsz with h0 | hbig
    · have h1 : info.size ≤ 0 := le_of_eq h0
      simp [processFile, hfile, h1, progress_log_openFile]
    · have h1 : ¬ info.size ≤ 0 := by omega
      simp [processFile, hfile, h1, hbig, progress_log_openFile]
  · intro rt rootFolder recursive isBase path g
    refine ⟨?_, ?_, ?_, ?_⟩
    · by_cases hroot : rt.equalFold (rt.clean path) rootFolder = false
      · rw [processFile_of_file rt rootFolder recursive isBase path ⟨false, 74999999⟩ g rfl
          hroot (by decide) (by decide)]
        dsimp only
        split
        · split <;> simp
        · simp
      · simp only [Bool.not_eq_false] at hroot
        simp [processFile, hroot]
    · intro hroot
      rw [processFile_of_file rt rootFolder recursive isBase path ⟨false, 74999999⟩ g rfl
        hroot (by decide) (by decide)]
      have hopen : Event.openFile path ∈ (hashFile rt path).2 := by
        unfold hashFile
        split <;> simp
      dsimp only
      split
      · split <;> simp [hopen]
      · simp [hopen]
    · simp [processFile]
    · simp [processFile]

/-- C7: for a directory entry other than the root the step returns `nil` and adds exactly 1
to `ctrSubFolders` if and only if `recursive` is true and the base name of the path is not
equal to `.git` under case folding; otherwise it returns `filepath.SkipDir` and leaves
`ctrSubFolders` unchanged.  In both cases the map and the counters `ctrEmptyFile`,
`ctrBaseUnique`, `ctrBaseDup`, `ctrFilesProcessed` and `ctrGBytes` keep their values, and a
directory whose base name folds to `.git` gets `filepath.SkipDir` for either value of
`recursive`. -/
theorem C7_directory_descent (rt : Runtime) (rootFolder : String) (recursive isBase : Bool)
    (path : String) (info : FileInfo) (g : Globals)
    (hdir : info.isDir = true)
    (hroot : rt.equalFold (rt.clean path) rootFolder = false) :
    (((processFile rt rootFolder recursive isBase path info g).1 = WalkResult.nil ∧
        (processFile rt rootFolder recursive isBase path info g).2.ctrSubFolders
          = g.ctrSubFolders + 1) ↔
      (recursive = true ∧ rt.equalFold (rt.base path) ".git" = false)) ∧
    (¬ (recursive = true ∧ rt.equalFold (rt.base path) ".git" = false) →
      (processFile rt rootFolder recursive isBase path info g).1 = WalkResult.SkipDir ∧
      (processFile rt rootFolder recursive isBase path info g).2.ctrSubFolders
        = g.ctrSubFolders) ∧
    (rt.equalFold (rt.base path) ".git" = true →
      (processFile rt rootFolder recursive isBase path info g).1 = WalkResult.SkipDir) ∧
    (processFile rt rootFolder recursive isBase path info g).2.dups = g.dups ∧
    (processFile rt rootFolder recursive isBase path info g).2.ctrEmptyFile = g.ctrEmptyFile ∧
    (processFile rt rootFolder recursive isBase path info g).2.ctrBaseUnique
      = g.ctrBaseUnique ∧
    (processFile rt rootFolder recursive isBase path info g).2.ctrBaseDup = g.ctrBaseDup ∧
    (processFile rt rootFolder recursive isBase path info g).2.ctrFilesProcessed
      = g.ctrFilesProcessed ∧
    (processFile rt rootFolder recursive isBase path info g).2.ctrGBytes = g.ctrGBytes := by
  cases recursive <;> cases hgit : rt.equalFold (rt.base path) ".git" <;>
    simp [processFile, hdir, hroot, hgit]

/-! ## The key: `%012d` of the size, then the hash string -/

theorem digitChar_toNat (d : Nat) (h : d < 10) : (Nat.digitChar d).toNat - 48 = d := by
  interval_cases d <;> rfl

theorem digitChar_isDigit (d : Nat) (h : d < 10) : (Nat.digitChar d).isDigit = true := by
  interval_cases d <;> rfl

theorem foldl_toDigitsCore (fuel : Nat) : ∀ (n : Nat) (ds : List Char), n < fuel →
    (Nat.toDigitsCore 10 fuel n ds).foldl (fun a c => 10 * a + (c.toNat - 48)) 0
      = ds.foldl (fun a c => 10 * a + (c.toNat - 48)) n := by
  induction fuel with
  | zero => intro n ds h; omega
  | succ fuel ih =>
    intro n ds h
    have hd : (Nat.digitChar (n % 10)).toNat - 48 = n % 10 :=
      digitChar_toNat _ (Nat.mod_lt _ (by decide))
    unfold Nat.toDigitsCore
    dsimp only
    split_ifs with h0
    · simp only [List.foldl_cons, hd]
      congr 1
      omega
    · rw [ih (n / 10) _ (by omega)]
      simp only [List.foldl_cons, hd]
      congr 1
      omega

theorem length_toDigitsCore (fuel : Nat) : ∀ (n k : Nat) (ds : List Char), 1 ≤ k → n < 10 ^ k →
    (Nat.toDigitsCore 10 fuel n ds).length ≤ k + ds.length := by
  induction fuel with
  | zero => intro n k ds _ _; simp [Nat.toDigitsCore]
  | succ fuel ih =>
    intro n k ds hk hn
    unfold Nat.toDigitsCore
    dsimp only
    split_ifs with h0
    · simp; omega
    · obtain ⟨j, rfl⟩ : ∃ j, k = j + 1 := ⟨k - 1, by omega⟩
      have hj : 1 ≤ j := by
        rcases Nat.eq_zero_or_pos j with rfl | hj
        · simp at hn; omega
        · exact hj
      have hlt : n / 10 < 10 ^ j := by
        rw [Nat.div_lt_iff_lt_mul (by decide)]
        rw [pow_succ] at hn
        exact hn
      have := ih (n / 10) j (Nat.digitChar (n % 10) :: ds) hj hlt
      simp only [List.length_cons] at this
      omega

theorem isDigit_toDigitsCore (fuel : Nat) : ∀ (n : Nat) (ds : List Char),
    (∀ c ∈ ds, c.isDigit = true) → ∀ c ∈ Nat.toDigitsCore 10 fuel n ds, c.isDigit = true := by
  induction fuel with
  | zero => intro n ds h; simpa [Nat.toDigitsCore] using h
  | succ fuel ih =>
    intro n ds h
    have hd : (Nat.digitChar (n % 10)).isDigit = true :=
      digitChar_isDigit _ (Nat.mod_lt _ (by decide))
    have h' : ∀ c ∈ Nat.digitChar (n % 10) :: ds, c.isDigit = true := by
      intro c hc
      rcases List.mem_cons.mp hc with rfl | hc
      · exact hd
      · exact h c hc
    unfold Nat.toDigitsCore
    dsimp only
    split_ifs with h0
    · exact h'
    · exact ih _ _ h'

theorem decimalValue_padZeros (w : Nat) (ds : List Char) :
    decimalValue (padZeros w ds) = decimalValue ds := by
  unfold padZeros decimalValue
  rw [List.foldl_append]
  congr 1
  induction (w - ds.length) with
  | zero => rfl
  | succ j ih => simpa [List.replicate_succ] using ih

theorem decimalValue_toDigits (n : Nat) : decimalValue (Nat.toDigits 10 n) = n := by
  unfold decimalValue Nat.toDigits
  rw [foldl_toDigitsCore _ _ _ (Nat.lt_succ_self n)]
  rfl

theorem sprintf012d_of_nonneg (n : Int) (h : 0 ≤ n) :
    sprintf012d n = ⟨padZeros 12 (Nat.toDigits 10 n.natAbs)⟩ := by
  unfold sprintf012d
  rw [if_neg (not_lt.mpr h)]

theorem length_padZeros (w : Nat) (ds : List Char) (h : ds.length ≤ w) :
    (padZeros w ds).length = w := by
  unfold padZeros
  simp
  omega

theorem length_sprintf012d (n : Int) (h0 : 0 ≤ n) (h : n < 10 ^ 12) :
    (sprintf012d n).length = 12 := by
  rw [sprintf012d_of_nonneg n h0]
  show (padZeros 12 _).length = 12
  apply length_padZeros
  have := length_toDigitsCore (n.natAbs + 1) n.natAbs 12 [] (by decide) (by omega)
  simpa [Nat.toDigits] using this

theorem decimalValue_sprintf012d (n : Int) (h0 : 0 ≤ n) :
    (decimalValue (sprintf012d n).data : Int) = n := by
  rw [sprintf012d_of_nonneg n h0]
  show ((decimalValue (padZeros 12 _) : Nat) : Int) = n
  rw [decimalValue_padZeros, decimalValue_toDigits]
  omega

/-- C9: the key of a file is `fmt.Sprintf("%012d", size)` followed by the string returned by
`hashFile`.  For sizes from 1 to 74,999,999 the size part has exactly 12 characters, all of
them decimal digits, and denotes the size; and for any two hash strings (the failure value
`"0"` included) two keys are equal if and only if the sizes are equal and the hash strings are
equal. -/
theorem C9_key_identifies_size_and_hash (s₁ s₂ : Int)
    (hs₁ : 0 < s₁) (hs₁' : s₁ < 75000000) (hs₂ : 0 < s₂) (hs₂' : s₂ < 75000000) :
    (∀ (rt : Runtime) (path : String),
      fileKey rt path s₁ = sprintf012d s₁ ++ (hashFile rt path).1) ∧
    (sprintf012d s₁).length = 12 ∧
    (∀ c ∈ (sprintf012d s₁).data, c.isDigit = true) ∧
    (decimalValue (sprintf012d s₁).data : Int) = s₁ ∧
    (∀ h₁ h₂ : String, sprintf012d s₁ ++ h₁ = sprintf012d s₂ ++ h₂ ↔ s₁ = s₂ ∧ h₁ = h₂) ∧
    (∀ (rt : Runtime) (p₁ p₂ : String),
      fileKey rt p₁ s₁ = fileKey rt p₂ s₂ ↔ s₁ = s₂ ∧ (hashFile rt p₁).1 = (hashFile rt p₂).1) := by
  have hl₁ := length_sprintf012d s₁ (le_of_lt hs₁) (by omega)
  have hl₂ := length_sprintf012d s₂ (le_of_lt hs₂) (by omega)
  have hiff : ∀ h₁ h₂ : String,
      sprintf012d s₁ ++ h₁ = sprintf012d s₂ ++ h₂ ↔ s₁ = s₂ ∧ h₁ = h₂ := by
    intro h₁ h₂
    constructor
    · intro h
      have hd := congrArg String.data h
      simp only [String.data_append] at hd
      have hl : (sprintf012d s₁).data.length = (sprintf012d s₂).data.length := by
        simp only [String.length] at hl₁ hl₂
        omega
      obtain ⟨ha, hb⟩ := List.append_inj hd hl
      refine ⟨?_, String.ext hb⟩
      rw [← decimalValue_sprintf012d s₁ (le_of_lt hs₁),
        ← decimalValue_sprintf012d s₂ (le_of_lt hs₂), ha]
    · rintro ⟨rfl, rfl⟩
      rfl
  refine ⟨fun _ _ => rfl, hl₁, ?_, decimalValue_sprintf012d s₁ (le_of_lt hs₁), hiff, ?_⟩
  · rw [sprintf012d_of_nonneg s₁ (le_of_lt hs₁)]
    intro c hc
    have hc' : c ∈ padZeros 12 (Nat.toDigits 10 s₁.natAbs) := hc
    unfold padZeros at hc'
    rcases List.mem_append.mp hc' with h | h
    · rw [(List.mem_replicate.mp h).2]
      rfl
    · exact isDigit_toDigitsCore _ _ [] (by simp) c h
  · intro rt p₁ p₂
    exact hiff _ _

/-! ## Scans: sequences of calls -/

theorem walkCalls_append (rt : Runtime) (rootFolder : String) (recursive isBase : Bool)
    (cs₁ cs₂ : List WalkCall) (g : Globals) :
    walkCalls rt rootFolder recursive isBase (cs₁ ++ cs₂) g
      = walkCalls rt rootFolder recursive isBase cs₂
          (walkCalls rt rootFolder recursive isBase cs₁ g) := by
  induction cs₁ generalizing g with
  | nil => rfl
  | cons c cs ih => simp [walkCalls, ih]

/-- The base-scan step keeps the relation between the file counters and the map. -/
theorem processFile_base_invariant (rt : Runtime) (rootFolder : String) (recursive : Bool)
    (path : String) (info : FileInfo) (g : Globals)
    (h : g.ctrFilesProcessed = g.ctrBaseUnique + g.ctrBaseDup ∧
      g.ctrBaseUnique = ((mapKeys g.dups).length : Int) ∧ (mapKeys g.dups).Nodup) :
    (processFile rt rootFolder recursive true path info g).2.ctrFilesProcessed
        = (processFile rt rootFolder recursive true path info g).2.ctrBaseUnique
          + (processFile rt rootFolder recursive true path info g).2.ctrBaseDup ∧
    (processFile rt rootFolder recursive true path info g).2.ctrBaseUnique
        = ((mapKeys (processFile rt rootFolder recursive true path info g).2.dups).length : Int) ∧
    (mapKeys (processFile rt rootFolder recursive true path info g).2.dups).Nodup := by
  obtain ⟨h1, h2, h3⟩ := h
  by_cases hf : info.isDir = false ∧ rt.equalFold (rt.clean path) rootFolder = false ∧
      0 < info.size ∧ info.size < 75000000
  · obtain ⟨hfile, hroot, hpos, hlt⟩ := hf
    rw [processFile_of_file rt rootFolder recursive true path info g hfile hroot hpos hlt]
    cases hk : mapGet g.dups (fileKey rt path info.size) with
    | none =>
      have hnot := (mapGet_eq_none_iff _ _).mp hk
      simp only [if_true, mapKeys_mapSet_of_none _ _ _ hk, progress_ctrBaseDup]
      refine ⟨by omega, by simp; omega, ?_⟩
      exact List.nodup_append.mpr ⟨h3, List.nodup_singleton _, by simpa using hnot⟩
    | some r =>
      simp only [mapKeys_mapSet_of_some _ _ _ _ hk, progress_ctrBaseUnique]
      exact ⟨by omega, h2, h3⟩
  · obtain ⟨e1, e2, e3, e4⟩ := processFile_of_not_file rt rootFolder recursive true path info g hf
    rw [e1, e2, e3, e4]
    exact ⟨h1, h2, h3⟩

theorem walkCalls_base_invariant (rt : Runtime) (rootFolder : String) (recursive : Bool)
    (cs : List WalkCall) : ∀ g : Globals,
    (g.ctrFilesProcessed = g.ctrBaseUnique + g.ctrBaseDup ∧
      g.ctrBaseUnique = ((mapKeys g.dups).length : Int) ∧ (mapKeys g.dups).Nodup) →
    ((walkCalls rt rootFolder recursive true cs g).ctrFilesProcessed
        = (walkCalls rt rootFolder recursive true cs g).ctrBaseUnique
          + (walkCalls rt rootFolder recursive true cs g).ctrBaseDup ∧
      (walkCalls rt rootFolder recursive true cs g).ctrBaseUnique
        = ((mapKeys (walkCalls rt rootFolder recursive true cs g).dups).length : Int) ∧
      (mapKeys (walkCalls rt rootFolder recursive true cs g).dups).Nodup) := by
  induction cs with
  | nil => intro g h; exact h
  | cons c cs ih =>
    intro g h
    exact ih _ (processFile_base_invariant rt rootFolder recursive c.path c.info g h)

/-- C10: after a base scan over any sequence of calls, started from an empty map and zeroed
counters, `ctrFilesProcessed = ctrBaseUnique + ctrBaseDup` and `ctrBaseUnique` is the number of
records of the map, whose keys are pairwise distinct. -/
theorem C10_base_scan_counters (rt : Runtime) (mainFolder : String) (baseRecurse : Bool)
    (baseCalls : List WalkCall) :
    (baseScan rt mainFolder baseRecurse baseCalls).ctrFilesProcessed
      = (baseScan rt mainFolder baseRecurse baseCalls).ctrBaseUnique
        + (baseScan rt mainFolder baseRecurse baseCalls).ctrBaseDup ∧
    (baseScan rt mainFolder baseRecurse baseCalls).ctrBaseUnique
      = ((mapKeys (baseScan rt mainFolder baseRecurse baseCalls).dups).length : Int) ∧
    (mapKeys (baseScan rt mainFolder baseRecurse baseCalls).dups).Nodup := by
  unfold baseScan
  apply walkCalls_base_invariant
  simp [resetCounters, initGlobals, mapKeys]

/-! ## Records persist: the path stays, the duplicate list only grows -/

theorem processFile_keeps_record (rt : Runtime) (rootFolder : String) (recursive isBase : Bool)
    (path : String) (info : FileInfo) (g : Globals) (k : String) (r : dupRecord)
    (h : mapGet g.dups k = some r) :
    ∃ sfx : String, mapGet (processFile rt rootFolder recursive isBase path info g).2.dups k
      = some { fullpath := r.fullpath, duplicateList := r.duplicateList ++ sfx } := by
  by_cases hf : info.isDir = false ∧ rt.equalFold (rt.clean path) rootFolder = false ∧
      0 < info.size ∧ info.size < 75000000
  · obtain ⟨hfile, hroot, hpos, hlt⟩ := hf
    rw [processFile_of_file rt rootFolder recursive isBase path info g hfile hroot hpos hlt]
    by_cases hk : k = fileKey rt path info.size
    · subst hk
      refine ⟨"\"" ++ path ++ "\",", ?_⟩
      simp only [h]
      exact mapGet_mapSet_self _ _ _
    · refine ⟨"", ?_⟩
      cases hk' : mapGet g.dups (fileKey rt path info.size) with
      | none =>
        cases isBase
        · simpa using h
        · simp only [if_true]
          rw [mapGet_mapSet_of_ne _ _ _ _ hk]
          simpa using h
      | some r' =>
        simp only
        rw [mapGet_mapSet_of_ne _ _ _ _ hk]
        simpa using h
  · refine ⟨"", ?_⟩
    rw [(processFile_of_not_file rt rootFolder recursive isBase path info g hf).1]
    simpa using h

theorem walkCalls_keeps_record (rt : Runtime) (rootFolder : String) (recursive isBase : Bool)
    (cs : List WalkCall) : ∀ (g : Globals) (k : String) (r : dupRecord),
    mapGet g.dups k = some r →
    ∃ sfx : String, mapGet (walkCalls rt rootFolder recursive isBase cs g).dups k
      = some { fullpath := r.fullpath, duplicateList := r.duplicateList ++ sfx } := by
  induction cs with
  | nil => intro g k r h; exact ⟨"", by simpa [walkCalls] using h⟩
  | cons c cs ih =>
    intro g k r h
    obtain ⟨s₁, h₁⟩ := processFile_keeps_record rt rootFolder recursive isBase c.path c.info g k r h
    obtain ⟨s₂, h₂⟩ := ih _ k _ h₁
    exact ⟨s₁ ++ s₂, by simpa [walkCalls, String.append_assoc] using h₂⟩

theorem processFile_keeps_absent (rt : Runtime) (rootFolder : String) (recursive isBase : Bool)
    (path : String) (info : FileInfo) (g : Globals) (k : String)
    (h : mapGet g.dups k = none)
    (hne : info.isDir = false → rt.equalFold (rt.clean path) rootFolder = false →
      0 < info.size → info.size < 75000000 → fileKey rt path info.size ≠ k) :
    mapGet (processFile rt rootFolder recursive isBase path info g).2.dups k = none := by
  by_cases hf : info.isDir = false ∧ rt.equalFold (rt.clean path) rootFolder = false ∧
      0 < info.size ∧ info.size < 75000000
  · obtain ⟨hfile, hroot, hpos, hlt⟩ := hf
    have hk : k ≠ fileKey rt path info.size := fun e => hne hfile hroot hpos hlt e.symm
    rw [processFile_of_file rt rootFolder recursive isBase path info g hfile hroot hpos hlt]
    cases hk' : mapGet g.dups (fileKey rt path info.size) with
    | none =>
      cases isBase
      · simpa using h
      · simp only [if_true]
        rw [mapGet_mapSet_of_ne _ _ _ _ hk]
        exact h
    | some r' =>
      simp only
      rw [mapGet_mapSet_of_ne _ _ _ _ hk]
      exact h
  · rw [(processFile_of_not_file rt rootFolder recursive isBase path info g hf).1]
    exact h

theorem walkCalls_keeps_absent (rt : Runtime) (rootFolder : String) (recursive isBase : Bool)
    (k : String) (cs : List WalkCall) : ∀ (g : Globals),
    mapGet g.dups k = none →
    (∀ c ∈ cs, c.info.isDir = false → rt.equalFold (rt.clean c.path) rootFolder = false →
      0 < c.info.size → c.info.size < 75000000 → fileKey rt c.path c.info.size ≠ k) →
    mapGet (walkCalls rt rootFolder recursive isBase cs g).dups k = none := by
  induction cs with
  | nil => intro g h _; exact h
  | cons c cs ih =>
    intro g h hne
    apply ih
    · exact processFile_keeps_absent rt rootFolder recursive isBase c.path c.info g k h
        (hne c (List.mem_cons_self _ _))
    · intro c' hc'
      exact hne c' (List.mem_cons_of_mem _ hc')

/-! ## Two scans: the first base file is canonical -/

theorem resetCounters_dups (g : Globals) : (resetCounters g).dups = g.dups := rfl

theorem hashFile_of_content (rt : Runtime) (fn : String) (bs : List (Fin 256))
    (h : rt.readFile fn = .content bs) : (hashFile rt fn).1 = sprintfx (rt.sha256 bs) := by
  unfold hashFile
  rw [h]

/-- C1 (amended): let the base scan meet a readable non-root file `A` with
`0 < size < 75,000,000` before which no file with the same key was processed, and let the
search scan meet a readable non-root file `B` of the same size and the same content hash.
Then the final map holds, under the key of `A`, a record whose `fullpath` is the path of `A`
and whose duplicate list contains the quoted path of `B` followed by a comma. -/
theorem C1_first_base_file_is_canonical (rt : Runtime) (mainFolder searchFolder : String)
    (baseRecurse searchRecurse : Bool) (pre post searchCalls : List WalkCall)
    (A B : WalkCall) (ca cb : List (Fin 256))
    (hAfile : A.info.isDir = false)
    (hAroot : rt.equalFold (rt.clean A.path) mainFolder = false)
    (hApos : 0 < A.info.size) (hAlt : A.info.size < 75000000)
    (hAread : rt.readFile A.path = .content ca)
    (hfirst : ∀ c ∈ pre, c.info.isDir = false →
      rt.equalFold (rt.clean c.path) mainFolder = false →
      0 < c.info.size → c.info.size < 75000000 →
      fileKey rt c.path c.info.size ≠ fileKey rt A.path A.info.size)
    (hB : B ∈ searchCalls)
    (hBfile : B.info.isDir = false)
    (hBroot : rt.equalFold (rt.clean B.path) searchFolder = false)
    (hBread : rt.readFile B.path = .content cb)
    (hsize : B.info.size = A.info.size)
    (hhash : rt.sha256 cb = rt.sha256 ca) :
    ∃ r : dupRecord,
      mapGet (bothScans rt mainFolder searchFolder baseRecurse searchRecurse
          (pre ++ A :: post) searchCalls).dups (fileKey rt A.path A.info.size) = some r ∧
      r.fullpath = A.path ∧
      ("\"" ++ B.path ++ "\",").data <:+: r.duplicateList.data := by
  -- the base scan
  have h0 : mapGet (walkCalls rt mainFolder baseRecurse true pre
      (resetCounters initGlobals)).dups (fileKey rt A.path A.info.size) = none :=
    walkCalls_keeps_absent rt mainFolder baseRecurse true _ pre _ rfl hfirst
  have h1 : mapGet (processFile rt mainFolder baseRecurse true A.path A.info
      (walkCalls rt mainFolder baseRecurse true pre (resetCounters initGlobals))).2.dups
      (fileKey rt A.path A.info.size) = some { fullpath := A.path, duplicateList := "" } := by
    rw [processFile_of_file rt mainFolder baseRecurse true A.path A.info _ hAfile hAroot hApos hAlt]
    simp only [h0, if_true]
    exact mapGet_mapSet_self _ _ _
  obtain ⟨s₁, h2⟩ := walkCalls_keeps_record rt mainFolder baseRecurse true post _ _ _ h1
  have h3 : mapGet (resetCounters (baseScan rt mainFolder baseRecurse (pre ++ A :: post))).dups
      (fileKey rt A.path A.info.size)
      = some { fullpath := A.path, duplicateList := "" ++ s₁ } := by
    rw [resetCounters_dups, baseScan, walkCalls_append]
    exact h2
  -- the search scan
  have hkey : fileKey rt B.path B.info.size = fileKey rt A.path A.info.size := by
    unfold fileKey
    rw [hsize, hashFile_of_content rt _ _ hAread, hashFile_of_content rt _ _ hBread, hhash]
  obtain ⟨pre', post', rfl⟩ := List.append_of_mem hB
  obtain ⟨s₂, h4⟩ := walkCalls_keeps_record rt searchFolder searchRecurse false pre' _ _ _ h3
  have h5 : mapGet (processFile rt searchFolder searchRecurse false B.path B.info
      (walkCalls rt searchFolder searchRecurse false pre'
        (resetCounters (baseScan rt mainFolder baseRecurse (pre ++ A :: post))))).2.dups
      (fileKey rt A.path A.info.size)
      = some { fullpath := A.path,
               duplicateList := "" ++ s₁ ++ s₂ ++ ("\"" ++ B.path ++ "\",") } := by
    rw [processFile_of_file rt searchFolder searchRecurse false B.path B.info _ hBfile hBroot
      (by rw [hsize]; exact hApos) (by rw [hsize]; exact hAlt)]
    rw [hkey]
    simp only [h4]
    exact mapGet_mapSet_self _ _ _
  obtain ⟨s₃, h6⟩ := walkCalls_keeps_record rt searchFolder searchRecurse false post' _ _ _ h5
  have h7 : mapGet (bothScans rt mainFolder searchFolder baseRecurse searchRecurse
      (pre ++ A :: post) (pre' ++ B :: post')).dups (fileKey rt A.path A.info.size)
      = some { fullpath := A.path,
               duplicateList := "" ++ s₁ ++ s₂ ++ ("\"" ++ B.path ++ "\",") ++ s₃ } := by
    rw [bothScans, walkCalls_append]
    exact h6
  refine ⟨_, h7, rfl, ("" ++ s₁ ++ s₂).data, s₃.data, ?_⟩
  simp [String.data_append]

theorem sample_bothScans_dups :
    (bothScans sampleRt "base" "s" true true sampleBaseCalls sampleSearchCalls).dups
      = [("0000000000026869",
          { fullpath := "base/a1.txt", duplicateList := "\"base/a2.txt\",\"s/b.txt\"," })] := by
  decide

/-- C1 (as stated) fails: the base scan meets `a1.txt` and then `a2.txt`, the search scan
meets `b.txt`, all three readable with the same two bytes of content.  `a2.txt` (base) and
`b.txt` (search) have identical content, yet no record of the final map has `a2.txt` as its
`fullpath`: the record belongs to `a1.txt`, met first. -/
theorem C1_later_base_file_is_not_canonical :
    (⟨"base/a2.txt", ⟨false, 2⟩⟩ : WalkCall) ∈ sampleBaseCalls ∧
    (⟨"s/b.txt", ⟨false, 2⟩⟩ : WalkCall) ∈ sampleSearchCalls ∧
    sampleRt.readFile "base/a2.txt" = sampleRt.readFile "s/b.txt" ∧
    (hashFile sampleRt "base/a2.txt").1 = (hashFile sampleRt "s/b.txt").1 ∧
    ¬ ∃ (k : String) (r : dupRecord),
      mapGet (bothScans sampleRt "base" "s" true true sampleBaseCalls sampleSearchCalls).dups k
        = some r ∧
      r.fullpath = "base/a2.txt" ∧
      ("\"" ++ "s/b.txt" ++ "\",").data <:+: r.duplicateList.data := by
  refine ⟨by decide, by decide, by decide, by decide, ?_⟩
  rintro ⟨k, r, hk, hr, -⟩
  rw [sample_bothScans_dups] at hk
  simp only [mapGet] at hk
  split_ifs at hk
  cases hk
  exact absurd hr (by decide)

/-- Witness of C1 (amended): `a1.txt` is met first in the base scan, `b.txt` in the search
scan. -/
theorem C1_first_base_file_is_canonical_witness :
    ∃ r : dupRecord,
      mapGet (bothScans sampleRt "base" "s" true true
          ([⟨"base", ⟨true, 4096⟩⟩] ++ ⟨"base/a1.txt", ⟨false, 2⟩⟩ :: [⟨"base/a2.txt", ⟨false, 2⟩⟩])
          sampleSearchCalls).dups (fileKey sampleRt "base/a1.txt" 2) = some r ∧
      r.fullpath = "base/a1.txt" ∧
      ("\"" ++ "s/b.txt" ++ "\",").data <:+: r.duplicateList.data :=
  C1_first_base_file_is_canonical sampleRt "base" "s" true true
    [⟨"base", ⟨true, 4096⟩⟩] [⟨"base/a2.txt", ⟨false, 2⟩⟩] sampleSearchCalls
    ⟨"base/a1.txt", ⟨false, 2⟩⟩ ⟨"s/b.txt", ⟨false, 2⟩⟩ [104, 105] [104, 105]
    (by decide) (by decide) (by decide) (by decide) (by decide) (by decide)
    (by decide) (by decide) (by decide) (by decide) (by decide) (by decide)

/-! ## Witnesses of the per-entry theorems -/

/-- Witness of C2: `a2.txt` is processed in the base scan after `a1.txt` with the same
content. -/
theorem C2_present_key_appends_duplicate_witness :
    mapGet sampleState.dups (fileKey sampleRt "base/a2.txt" 2)
      = some { fullpath := "base/a1.txt", duplicateList := "" } ∧
    mapGet (processFile sampleRt "base" true true "base/a2.txt" ⟨false, 2⟩ sampleState).2.dups
        (fileKey sampleRt "base/a2.txt" 2)
      = some { fullpath := "base/a1.txt", duplicateList := "" ++ "\"" ++ "base/a2.txt" ++ "\"," } ∧
    (processFile sampleRt "base" true true "base/a2.txt" ⟨false, 2⟩ sampleState).2.ctrBaseDup
      = sampleState.ctrBaseDup + 1 :=
  have h := C2_present_key_appends_duplicate sampleRt "base" true true "base/a2.txt" ⟨false, 2⟩
    sampleState { fullpath := "base/a1.txt", duplicateList := "" }
    (by decide) (by decide) (by decide) (by decide) (by decide)
  ⟨by decide, h.1, h.2.2.2.1⟩

/-- Witness of C3: `a1.txt` is processed in the base scan on the empty map. -/
theorem C3_base_new_key_inserts_record_witness :
    mapGet initGlobals.dups (fileKey sampleRt "base/a1.txt" 2) = none ∧
    mapGet (processFile sampleRt "base" true true "base/a1.txt" ⟨false, 2⟩ initGlobals).2.dups
        (fileKey sampleRt "base/a1.txt" 2)
      = some { fullpath := "base/a1.txt", duplicateList := "" } ∧
    (processFile sampleRt "base" true true "base/a1.txt" ⟨false, 2⟩ initGlobals).2.ctrBaseUnique
      = initGlobals.ctrBaseUnique + 1 :=
  have h := C3_base_new_key_inserts_record sampleRt "base" true "base/a1.txt" ⟨false, 2⟩
    initGlobals (by decide) (by decide) (by decide) (by decide) (by decide)
  ⟨by decide, h.1, h.2.2.2.1⟩

/-- Witness of C4: `b.txt` is processed in the search scan on the empty map. -/
theorem C4_search_unmatched_is_noop_witness :
    mapGet initGlobals.dups (fileKey sampleRt "s/b.txt" 2) = none ∧
    (processFile sampleRt "s" true false "s/b.txt" ⟨false, 2⟩ initGlobals).2.dups
      = initGlobals.dups ∧
    (processFile sampleRt "s" true false "s/b.txt" ⟨false, 2⟩ initGlobals).2.ctrBaseDup
      = initGlobals.ctrBaseDup ∧
    (processFile sampleRt "s" true false "s/b.txt" ⟨false, 2⟩ initGlobals).2.ctrBaseUnique
      = initGlobals.ctrBaseUnique :=
  ⟨by decide, C4_search_unmatched_is_noop sampleRt "s" true "s/b.txt" ⟨false, 2⟩ initGlobals
    (by decide) (by decide)⟩

/-- Witness of C5: an empty file `base/empty.txt` in the base scan. -/
theorem C5_empty_or_oversized_skipped_witness :
    (processFile sampleRt "base" true true "base/empty.txt" ⟨false, 0⟩ sampleState).1
      = WalkResult.nil ∧
    (processFile sampleRt "base" true true "base/empty.txt" ⟨false, 0⟩ sampleState).2.ctrEmptyFile
      = sampleState.ctrEmptyFile + 1 ∧
    (processFile sampleRt "base" true true "base/empty.txt" ⟨false, 0⟩ sampleState).2.dups
      = sampleState.dups :=
  have h := C5_empty_or_oversized_skipped.1 sampleRt "base" true true "base/empty.txt"
    ⟨false, 0⟩ sampleState (by decide) (by decide)
  ⟨h.1, h.2.1, h.2.2.2.1⟩

/-- Witness of C7: the folder `base/.GIT` met in a recursive base scan is not descended
into. -/
theorem C7_directory_descent_witness :
    sampleRt.equalFold (sampleRt.base "base/.GIT") ".git" = true ∧
    (processFile sampleRt "base" true true "base/.GIT" ⟨true, 4096⟩ sampleState).1
      = WalkResult.SkipDir ∧
    (processFile sampleRt "base" true true "base/.GIT" ⟨true, 4096⟩ sampleState).2.dups
      = sampleState.dups :=
  have h := C7_directory_descent sampleRt "base" true true "base/.GIT" ⟨true, 4096⟩ sampleState
    (by decide) (by decide)
  ⟨by decide, h.2.2.1 (by decide), h.2.2.2.1⟩

/-- Witness of C9: sizes 2 and 74,999,999. -/
theorem C9_key_identifies_size_and_hash_witness :
    (sprintf012d 2).length = 12 ∧
    (decimalValue (sprintf012d 2).data : Int) = 2 ∧
    (∀ h₁ h₂ : String, sprintf012d 2 ++ h₁ = sprintf012d 74999999 ++ h₂ ↔
      (2 : Int) = 74999999 ∧ h₁ = h₂) :=
  have h := C9_key_identifies_size_and_hash 2 74999999
    (by decide) (by decide) (by decide) (by decide)
  ⟨h.2.1, h.2.2.2.1, h.2.2.2.2.1⟩

/-! ## Unreadable files -/

theorem hashFile_of_failure (rt : Runtime) (fn : String)
    (h : rt.readFile fn = .openError ∨ rt.readFile fn = .copyError) :
    (hashFile rt fn).1 = "0" := by
  unfold hashFile
  rcases h with h | h <;> rw [h]

/-- The step never aborts the walk on a file entry. -/
theorem processFile_file_result (rt : Runtime) (rootFolder : String) (recursive isBase : Bool)
    (path : String) (info : FileInfo) (g : Globals) (hfile : info.isDir = false) :
    (processFile rt rootFolder recursive isBase path info g).1 = WalkResult.nil := by
  by_cases hf : info.isDir = false ∧ rt.equalFold (rt.clean path) rootFolder = false ∧
      0 < info.size ∧ info.size < 75000000
  · obtain ⟨_, hroot, hpos, hlt⟩ := hf
    rw [processFile_of_file rt rootFolder recursive isBase path info g hfile hroot hpos hlt]
    dsimp only
    split
    · split <;> rfl
    · rfl
  · unfold processFile
    dsimp only
    split_ifs <;> simp_all

/-- A non-root file of accepted size that cannot be read, met in the base scan while the key
made of its size and `"0"` is absent: the step stores a record for it under that key. -/
theorem processFile_unreadable_base (rt : Runtime) (rootFolder : String) (recursive : Bool)
    (path : String) (info : FileInfo) (g : Globals)
    (hfile : info.isDir = false)
    (hroot : rt.equalFold (rt.clean path) rootFolder = false)
    (hpos : 0 < info.size) (hlt : info.size < 75000000)
    (hfail : rt.readFile path = .openError ∨ rt.readFile path = .copyError)
    (hkey : mapGet g.dups (sprintf012d info.size ++ "0") = none) :
    (processFile rt rootFolder recursive true path info g).2.dups
      = mapSet g.dups (sprintf012d info.size ++ "0") { fullpath := path, duplicateList := "" } ∧
    (processFile rt rootFolder recursive true path info g).2.ctrFilesProcessed
      = g.ctrFilesProcessed + 1 := by
  have hk : fileKey rt path info.size = sprintf012d info.size ++ "0" := by
    unfold fileKey
    rw [hashFile_of_failure rt path hfail]
  rw [processFile_of_file rt rootFolder recursive true path info g hfile hroot hpos hlt]
  simp only [hk, hkey, if_true]
  exact ⟨trivial, trivial⟩

/-- C6 (the code at the failing input): when no file can be opened, `hashFile` returns
`"0"` for `base/a.txt` (5 bytes), and the base-scan step still returns `nil`, counts the
file in `ctrFilesProcessed` and `ctrBaseUnique`, and stores a record for it under the key
`0000000000050`; a second unreadable file of 5 bytes, `base/b.txt`, is then appended to that
record as a duplicate. -/
theorem C6_unreadable_file_is_indexed :
    unreadableRt.readFile "base/a.txt" = ReadResult.openError ∧
    (hashFile unreadableRt "base/a.txt").1 = "0" ∧
    (processFile unreadableRt "base" false true "base/a.txt" ⟨false, 5⟩ initGlobals).1
      = WalkResult.nil ∧
    (processFile unreadableRt "base" false true "base/a.txt" ⟨false, 5⟩ initGlobals).2.dups
      = [("0000000000050", { fullpath := "base/a.txt", duplicateList := "" })] ∧
    (processFile unreadableRt "base" false true "base/a.txt" ⟨false, 5⟩
      initGlobals).2.ctrFilesProcessed = 1 ∧
    (processFile unreadableRt "base" false true "base/a.txt" ⟨false, 5⟩
      initGlobals).2.ctrBaseUnique = 1 ∧
    (baseScan unreadableRt "base" false
        [⟨"base", ⟨true, 4096⟩⟩, ⟨"base/a.txt", ⟨false, 5⟩⟩, ⟨"base/b.txt", ⟨false, 5⟩⟩]).dups
      = [("0000000000050",
          { fullpath := "base/a.txt", duplicateList := "\"base/b.txt\"," })] := by
  refine ⟨by decide, by decide, by decide, by decide, by decide, by decide, by decide⟩

/-! ## The report -/

theorem splitGo_piece (p : List Char) : ∀ (acc rest : List Char),
    (∀ ch ∈ p, ch ≠ Char.ofNat 34) →
    splitGo [Char.ofNat 34, ','] (p ++ Char.ofNat 34 :: ',' :: rest) 0 acc
      = ⟨acc.reverse ++ p⟩ :: splitGo [Char.ofNat 34, ','] rest 0 [] := by
  induction p with
  | nil =>
    intro acc rest _
    simp [splitGo, List.isPrefixOf]
  | cons ch p ih =>
    intro acc rest h
    have hch : ch ≠ Char.ofNat 34 := h ch (List.mem_cons_self _ _)
    have hch' : ¬ Char.ofNat 34 = ch := fun e => hch e.symm
    have hp : ∀ c ∈ p, c ≠ Char.ofNat 34 := fun c hc => h c (List.mem_cons_of_mem _ hc)
    have hb : (Char.ofNat 34 == ch) = false := by simpa using hch'
    have hpre : List.isPrefixOf [Char.ofNat 34, ',']
        (ch :: (p ++ Char.ofNat 34 :: ',' :: rest)) = false := by
      simp [List.isPrefixOf, hb]
    rw [List.cons_append, splitGo, hpre]
    simp only [Bool.false_eq_true, if_false]
    rw [ih (ch :: acc) rest hp]
    simp

theorem splitGo_entry (p rest : List Char)
    (hq : ∀ ch ∈ p, ch ≠ Char.ofNat 34) (hc : p.head? ≠ some ',') :
    splitGo [Char.ofNat 34, ','] (Char.ofNat 34 :: (p ++ Char.ofNat 34 :: ',' :: rest)) 0 []
      = ⟨Char.ofNat 34 :: p⟩ :: splitGo [Char.ofNat 34, ','] rest 0 [] := by
  have hpre : List.isPrefixOf [Char.ofNat 34, ',']
      (Char.ofNat 34 :: (p ++ Char.ofNat 34 :: ',' :: rest)) = false := by
    cases p with
    | nil => simp [List.isPrefixOf]
    | cons ch p =>
      have : ¬ ',' = ch := by
        intro e
        apply hc
        simp [← e]
      simp [List.isPrefixOf, this]
  rw [splitGo, hpre]
  simp only [Bool.false_eq_true, if_false]
  rw [splitGo_piece p [Char.ofNat 34] rest hq]
  simp


/-- The characters of one stored entry: quote, path, quote, comma. -/
theorem entry_data (p : String) :
    ("\"" ++ p ++ "\",").data = Char.ofNat 34 :: (p.data ++ [Char.ofNat 34, ',']) := by
  simp only [String.data_append]
  rfl

theorem appendDuplicates_data (ps : List String) : ∀ dl : String,
    (appendDuplicates dl ps).data
      = dl.data ++ ps.flatMap (fun p => Char.ofNat 34 :: (p.data ++ [Char.ofNat 34, ','])) := by
  induction ps with
  | nil => intro dl; simp [appendDuplicates]
  | cons p ps ih =>
    intro dl
    rw [appendDuplicates, ih, String.data_append, entry_data]
    simp

theorem splitGo_entries (ps : List String)
    (hq : ∀ p ∈ ps, (∀ ch ∈ p.data, ch ≠ Char.ofNat 34) ∧ p.data.head? ≠ some ',') :
    splitGo [Char.ofNat 34, ',']
        (ps.flatMap (fun p => Char.ofNat 34 :: (p.data ++ [Char.ofNat 34, ',']))) 0 []
      = ps.map (fun p => "\"" ++ p) ++ [""] := by
  induction ps with
  | nil => rfl
  | cons p ps ih =>
    have hp := hq p (List.mem_cons_self _ _)
    have hps : ∀ q ∈ ps, (∀ ch ∈ q.data, ch ≠ Char.ofNat 34) ∧ q.data.head? ≠ some ',' :=
      fun q hq' => hq q (List.mem_cons_of_mem _ hq')
    simp only [List.flatMap_cons, List.cons_append, List.append_assoc, List.singleton_append,
      List.map_cons]
    rw [splitGo_entry p.data _ hp.1 hp.2, List.nil_append, ih hps]
    rfl

theorem dropWhile_ne_nil_of_mem {f : Char → Bool} {l : List Char} {c : Char}
    (hc : c ∈ l) (hf : f c = false) : l.dropWhile f ≠ [] := by
  induction l with
  | nil => cases hc
  | cons a l ih =>
    rcases List.mem_cons.mp hc with rfl | h
    · simp [List.dropWhile, hf]
    · cases ha : f a
      · simp [List.dropWhile, ha]
      · simpa [List.dropWhile, ha] using ih h

theorem mem_dropWhile_of_mem {f : Char → Bool} {l : List Char} {c : Char}
    (hc : c ∈ l) (hf : f c = false) : c ∈ l.dropWhile f := by
  induction l with
  | nil => cases hc
  | cons a l ih =>
    rcases List.mem_cons.mp hc with rfl | h
    · simp [List.dropWhile, hf]
    · cases ha : f a
      · simpa [List.dropWhile, ha] using Or.inr h
      · simpa [List.dropWhile, ha] using ih h

/-- A string with a character outside the cutset does not trim to the empty string. -/
theorem trim_ne_empty (s cutset : String) (c : Char) (hc : c ∈ s.data)
    (hcut : c ∉ cutset.data) : trim s cutset ≠ "" := by
  have hf : (fun ch => cutset.data.contains ch) c = false := by simpa using hcut
  have h1 : c ∈ (s.data.dropWhile (fun ch => cutset.data.contains ch)).reverse :=
    List.mem_reverse.mpr (mem_dropWhile_of_mem hc hf)
  have h2 := dropWhile_ne_nil_of_mem h1 hf
  intro h
  have hd := congrArg String.data h
  simp only [trim] at hd
  exact h2 (List.reverse_eq_nil_iff.mp hd)

/-- Trimming ignores a leading quote. -/
theorem trim_quote_cons (p : String) : trim ("\"" ++ p) " \"" = trim p " \"" := by
  simp only [trim, String.data_append]
  simp [List.dropWhile]

theorem doubleQuote_quote_cons (p : String) : doubleQuote ("\"" ++ p) = doubleQuote p := by
  unfold doubleQuote
  rw [trim_quote_cons]

theorem doubleQuote_ne_empty (s : String) (h : trim s " \"" ≠ "") :
    doubleQuote s ≠ "\"\"" := by
  unfold doubleQuote
  intro e
  apply h
  have hd := congrArg String.data e
  simp only [String.data_append] at hd
  apply String.ext
  simpa using hd

theorem duplicateLines_append (l₁ l₂ : List String) :
    duplicateLines (l₁ ++ l₂) = duplicateLines l₁ ++ duplicateLines l₂ := by
  induction l₁ with
  | nil => simp [duplicateLines]
  | cons a l ih => simp [duplicateLines, ih, String.append_assoc]

theorem duplicateLines_entries (ps : List String)
    (h : ∀ p ∈ ps, trim p " \"" ≠ "") :
    duplicateLines (ps.map (fun p => "\"" ++ p)) = duplicateBlock ps := by
  induction ps with
  | nil => rfl
  | cons p ps ih =>
    have hp := doubleQuote_ne_empty p (h p (List.mem_cons_self _ _))
    simp only [List.map_cons, duplicateLines, duplicateBlock, doubleQuote_quote_cons]
    rw [if_pos hp, ih (fun q hq => h q (List.mem_cons_of_mem _ hq))]

/-- The report block of a record whose duplicate list was built by appending the paths `ps`,
none of which contains a double quote, starts with a comma or consists of spaces only. -/
theorem reportRecord_appendDuplicates (c : String) (ps : List String) (hne : ps ≠ [])
    (hq : ∀ p ∈ ps, (∀ ch ∈ p.data, ch ≠ Char.ofNat 34) ∧ p.data.head? ≠ some ',' ∧
      ∃ ch ∈ p.data, ch ≠ ' ') :
    reportRecord { fullpath := c, duplicateList := appendDuplicates "" ps }
      = "Base File:    " ++ doubleQuote c ++ "\n" ++ duplicateBlock ps ++ "\n" := by
  have hcut : (" \"" : String).data = [' ', Char.ofNat 34] := rfl
  have htrim : ∀ p ∈ ps, trim p " \"" ≠ "" := by
    intro p hp
    obtain ⟨h1, _, ch, hch, hsp⟩ := hq p hp
    refine trim_ne_empty p " \"" ch hch ?_
    rw [hcut]
    simp [hsp, h1 ch hch]
  have hdl : trim (appendDuplicates "" ps) " \"" ≠ "" := by
    obtain ⟨p, ps', rfl⟩ := List.exists_cons_of_ne_nil hne
    obtain ⟨h1, _, ch, hch, hsp⟩ := hq p (List.mem_cons_self _ _)
    refine trim_ne_empty _ " \"" ch ?_ ?_
    · rw [appendDuplicates_data]
      simp [hch]
    · rw [hcut]
      simp [hsp, h1 ch hch]
  have hsplit : split (appendDuplicates "" ps) "\"," = ps.map (fun p => "\"" ++ p) ++ [""] := by
    have hsep : ("\"," : String).data = [Char.ofNat 34, ','] := rfl
    unfold split
    rw [hsep, if_neg (by simp), appendDuplicates_data]
    exact splitGo_entries ps (fun p hp => ⟨(hq p hp).1, (hq p hp).2.1⟩)
  unfold reportRecord
  rw [if_pos hdl]
  simp only
  rw [hsplit, duplicateLines_append, duplicateLines_entries ps htrim]
  have : duplicateLines [""] = "" := by decide
  rw [this]
  simp [String.append_assoc]

theorem reportRecord_no_duplicates (c : String) :
    reportRecord { fullpath := c, duplicateList := "" } = "" := by
  unfold reportRecord
  rw [if_neg]
  simp only [ne_eq, not_not]
  decide

/-- C8 (the code at the failing input): the search scan meets one file, `s/a",b.txt`, with
the content of `base/x.txt`.  The step appends that one path to the record of `base/x.txt`,
and the report block of the record has two duplicate lines, `"s/a"` and `"b.txt"`, instead of
the single line for the appended path.  Likewise the one appended path `,a.txt` is written
as `"a.txt"`, without its comma. -/
theorem C8_report_splits_path_at_quote_comma :
    (bothScans quoteRt "base" "s" false false
        [⟨"base", ⟨true, 4096⟩⟩, ⟨"base/x.txt", ⟨false, 2⟩⟩]
        [⟨"s", ⟨true, 4096⟩⟩, ⟨"s/a\",b.txt", ⟨false, 2⟩⟩]).dups
      = [("0000000000026869",
          { fullpath := "base/x.txt", duplicateList := "\"s/a\",b.txt\"," })] ∧
    reportRecord { fullpath := "base/x.txt", duplicateList := "\"s/a\",b.txt\"," }
      = "Base File:    \"base/x.txt\"\n  - Duplicate:\"s/a\"\n  - Duplicate:\"b.txt\"\n\n" ∧
    reportRecord { fullpath := "base/x.txt", duplicateList := "\"s/a\",b.txt\"," }
      ≠ "Base File:    \"base/x.txt\"\n" ++ duplicateBlock ["s/a\",b.txt"] ++ "\n" ∧
    reportRecord { fullpath := "base/x.txt", duplicateList := appendDuplicates "" [",a.txt"] }
      = "Base File:    \"base/x.txt\"\n  - Duplicate:\"a.txt\"\n\n" ∧
    reportRecord { fullpath := "base/x.txt", duplicateList := appendDuplicates "" [",a.txt"] }
      ≠ "Base File:    \"base/x.txt\"\n" ++ duplicateBlock [",a.txt"] ++ "\n" := by
  refine ⟨by decide, by decide, by decide, by decide, by decide⟩

end Dup
